import Mathlib

/-!
Shallow embedding of the zeur-elizaos yield-rebalancing core
(`src/services/yield-optimizer.ts`, `src/services/risk-analyzer.ts`, and the
allocation-cap table of the repository's second `YieldOptimizer` module).

Conventions:
* JavaScript `number` is modelled as `ℚ` where the code only performs field
  arithmetic and comparisons, and as `ℝ` in the allocation optimizer, whose
  performance multiplier uses `Math.tanh`.
* JavaScript `bigint` (position and movement amounts) is modelled as `ℤ`;
  `bigint` division truncates toward zero, i.e. `Int.tdiv`.
* JavaScript `Map` objects (insertion-ordered, unique keys) are modelled as
  association lists `List (String × β)`; `map.get k` is `lookupA k`.
* `async` functions have no internal concurrency (each is awaited to
  completion before the next starts), so they are modelled as pure functions;
  the blockchain/settlement collaborator is a record of response functions.
-/

/-- Association-list lookup, modelling `Map.get` (first match; JS maps have
unique keys so first match is the only match). -/
def lookupA {β : Type} (k : String) : List (String × β) → Option β
  | [] => none
  | (k', v) :: rest => if k' = k then some v else lookupA k rest

/-- Risk tolerance tag, from `OptimizationStrategy.riskTolerance` in
`types/index.ts`. -/
inductive RiskTolerance
  | conservative
  | moderate
  | aggressive
deriving DecidableEq, Repr

/-- Target-allocation strategy, from `OptimizationStrategy` in
`types/index.ts`, generic over the numeric type (`ℝ` for the optimizer
output, `ℚ` for the decision gate and movement planner). -/
structure OptimizationStrategy (α : Type) where
  targetAllocations : List (String × α)
  expectedAPR : α
  riskScore : α
  rebalanceThreshold : α
  maxGasPrice : α
  riskTolerance : RiskTolerance

/-- Portfolio position entry, from `PortfolioPosition` in `types/index.ts`.
The `protocol`, `lstTokenBalance` and `pendingWithdrawals` fields are not
read by any function modelled here and are omitted; amounts are `bigint`
(`ℤ`), percentages are `number` (`ℚ`). -/
structure Position where
  currentAmount : ℤ
  targetAmount : ℤ
  currentPercentage : ℚ
  targetPercentage : ℚ
deriving DecidableEq, Repr

/-- Planned transfer between two protocols, the element type of
`calculateRequiredMovements`' result in `yield-optimizer.ts`. -/
structure Movement where
  fromP : String
  toP : String
  amount : ℤ
deriving DecidableEq, Repr

/-- Sum of all positions' current amounts: `getTotalPortfolioValue` in
`yield-optimizer.ts` (lines 274-280). -/
def getTotalPortfolioValue (positions : List (String × Position)) : ℤ :=
  (positions.map (fun kv => kv.2.currentAmount)).sum

/-- JavaScript `Math.round` on an exact rational: round half toward
positive infinity, `⌊x + 1/2⌋`. -/
def jsRound (q : ℚ) : ℤ :=
  Int.floor (q + 1 / 2)

/-- Target amount for one protocol in `calculateRequiredMovements`
(line 296): `(totalValue * BigInt(Math.round(targetPercentage * 100))) /
10000n`, with truncating `bigint` division. -/
def targetAmountOf (totalValue : ℤ) (targetPercentage : ℚ) : ℤ :=
  Int.tdiv (totalValue * jsRound (targetPercentage * 100)) 10000

/-- Classification pass of `calculateRequiredMovements` (lines 292-304):
walk the strategy's allocation map in insertion order, skip protocols with
no position, and split the difference `targetAmount - currentAmount` into
deficit (`> 0`) and surplus (`< 0`) lists, preserving order. Returns
(surpluses, deficits). -/
def buildSurplusesDeficits (targets : List (String × ℚ))
    (positions : List (String × Position)) (totalValue : ℤ) :
    List (String × ℤ) × List (String × ℤ) :=
  match targets with
  | [] => ([], [])
  | (p, pct) :: rest =>
    let acc := buildSurplusesDeficits rest positions totalValue
    match lookupA p positions with
    | none => acc
    | some pos =>
      let difference := targetAmountOf totalValue pct - pos.currentAmount
      if 0 < difference then (acc.1, (p, difference) :: acc.2)
      else if difference < 0 then ((p, -difference) :: acc.1, acc.2)
      else acc

/-- Inner matching loop of `calculateRequiredMovements` (lines 307-328) for
a single surplus: walk the deficit list in order, emit a movement of
`min(remainingSurplus, deficitAmount)` per entry, stop when the surplus is
exhausted, keep a partially-satisfied deficit in place and drop satisfied
ones. Returns the emitted movements and the remaining deficit list. -/
def matchOne (fromP : String) (s : ℤ) (deficits : List (String × ℤ)) :
    List Movement × List (String × ℤ) :=
  match deficits with
  | [] => ([], [])
  | (toP, d) :: rest =>
    if s = 0 then ([], (toP, d) :: rest)
    else
      let m := min s d
      let next := matchOne fromP (s - m) rest
      (⟨fromP, toP, m⟩ :: next.1,
        (if d - m = 0 then [] else [(toP, d - m)]) ++ next.2)

/-- Outer matching loop of `calculateRequiredMovements` (lines 307-328):
process each surplus in order against the evolving deficit list. -/
def matchAll (surpluses deficits : List (String × ℤ)) : List Movement :=
  match surpluses with
  | [] => []
  | (p, s) :: rest =>
    let step := matchOne p s deficits
    step.1 ++ matchAll rest step.2

/-- Movement planner `calculateRequiredMovements` in `yield-optimizer.ts`
(lines 282-331). -/
def calculateRequiredMovements (strategy : OptimizationStrategy ℚ)
    (positions : List (String × Position)) (totalValue : ℤ) : List Movement :=
  let sd := buildSurplusesDeficits strategy.targetAllocations positions totalValue
  matchAll sd.1 sd.2

/-- Rebalance-need computation `calculateRebalanceNeed` (lines 214-223):
sum of absolute drifts over the candidate strategy's allocation keys
(`positions.get(protocol)?.currentPercentage || 0`), divided by 100. -/
def calculateRebalanceNeed (newStrategy : OptimizationStrategy ℚ)
    (positions : List (String × Position)) : ℚ :=
  ((newStrategy.targetAllocations.map
    (fun pt => |pt.2 - (((lookupA pt.1 positions).map
      (fun pos => pos.currentPercentage)).getD 0)|)).sum) / 100

/-- Gas-price gate `checkGasConditions` (lines 225-228): the live gas price
must not exceed the active strategy's ceiling. -/
def checkGasConditions (gasPrice maxGasPrice : ℚ) : Prop :=
  gasPrice ≤ maxGasPrice

/-- Risk gate `checkRiskThresholds` (lines 230-235): cap 4 for conservative,
8 for aggressive, 6 otherwise, taken from the ACTIVE strategy's tolerance
and compared against the candidate's risk score. -/
def checkRiskThresholds (currentTolerance : RiskTolerance)
    (newStrategy : OptimizationStrategy ℚ) : Prop :=
  newStrategy.riskScore ≤
    (match currentTolerance with
     | RiskTolerance.conservative => 4
     | RiskTolerance.aggressive => 8
     | RiskTolerance.moderate => 6)

/-- Rebalance decision gate `shouldRebalance` (lines 202-212): need above
the active strategy's threshold, gas acceptable, and risk acceptable. -/
def shouldRebalance (currentStrategy : OptimizationStrategy ℚ)
    (positions : List (String × Position)) (gasPrice : ℚ)
    (newStrategy : OptimizationStrategy ℚ) : Prop :=
  calculateRebalanceNeed newStrategy positions > currentStrategy.rebalanceThreshold ∧
  checkGasConditions gasPrice currentStrategy.maxGasPrice ∧
  checkRiskThresholds currentStrategy.riskTolerance newStrategy

/-- Default strategy installed by the `YieldOptimizer` constructor
(lines 31-43), with the default gas ceiling 50 and moderate tolerance. -/
def defaultStrategy : OptimizationStrategy ℚ :=
  ⟨[("lido", 35), ("rocketpool", 25), ("etherfi", 25), ("morpho", 15)],
    8, 3, 5 / 100, 50, RiskTolerance.moderate⟩

/-- Transaction status, from `RebalanceTransaction.status` in
`types/index.ts`. -/
inductive TxStatus
  | pending
  | executing
  | completed
  | failed
deriving DecidableEq, Repr

/-- One call made against the blockchain/settlement collaborator during a
movement's execution. -/
inductive ChainAction
  | unstake (protocol : String) (amount : ℤ)
  | stake (protocol : String) (amount : ℤ)
  | waitTx (txHash : String)
deriving DecidableEq, Repr

/-- Whether a chain action is a deposit (stake) submission. -/
def ChainAction.isStake : ChainAction → Bool
  | ChainAction.stake _ _ => true
  | _ => false

/-- Response behaviour of the external settlement collaborator
(`BlockchainService`): `executeUnstake`/`executeStake` return a transaction
hash or none, `waitForTransaction` confirms or rejects a hash. -/
structure BlockchainService where
  executeUnstake : String → ℤ → Option String
  executeStake : String → ℤ → Option String
  waitForTransaction : String → Bool

/-- Outcome of executing one movement: the transaction's final status, its
recorded stake hash, the collaborator calls made, and the ordered list of
values successively assigned to `transaction.status` (the initial `pending`
from the creation in `executeRebalance`, the `executing` set on entry to
`executeMovement`, and the terminal value). -/
structure MovementResult where
  status : TxStatus
  txHash : Option String
  calls : List ChainAction
  trace : List TxStatus
deriving DecidableEq, Repr

/-- Two-leg execution of one movement: `executeMovement` in
`yield-optimizer.ts` (lines 333-388). Unstake from the source; a missing
hash or failed confirmation throws, is caught, and marks the transaction
`failed` before any stake call; otherwise stake to the destination, record
the hash, and mark `completed` or `failed` from the confirmation. -/
def executeMovement (svc : BlockchainService) (mv : Movement) : MovementResult :=
  match svc.executeUnstake mv.fromP mv.amount with
  | none =>
    ⟨TxStatus.failed, none, [ChainAction.unstake mv.fromP mv.amount],
      [TxStatus.pending, TxStatus.executing, TxStatus.failed]⟩
  | some unstakeTxHash =>
    if svc.waitForTransaction unstakeTxHash then
      match svc.executeStake mv.toP mv.amount with
      | none =>
        ⟨TxStatus.failed, none,
          [ChainAction.unstake mv.fromP mv.amount, ChainAction.waitTx unstakeTxHash,
            ChainAction.stake mv.toP mv.amount],
          [TxStatus.pending, TxStatus.executing, TxStatus.failed]⟩
      | some stakeTxHash =>
        if svc.waitForTransaction stakeTxHash then
          ⟨TxStatus.completed, some stakeTxHash,
            [ChainAction.unstake mv.fromP mv.amount, ChainAction.waitTx unstakeTxHash,
              ChainAction.stake mv.toP mv.amount, ChainAction.waitTx stakeTxHash],
            [TxStatus.pending, TxStatus.executing, TxStatus.completed]⟩
        else
          ⟨TxStatus.failed, some stakeTxHash,
            [ChainAction.unstake mv.fromP mv.amount, ChainAction.waitTx unstakeTxHash,
              ChainAction.stake mv.toP mv.amount, ChainAction.waitTx stakeTxHash],
            [TxStatus.pending, TxStatus.executing, TxStatus.failed]⟩
    else
      ⟨TxStatus.failed, none,
        [ChainAction.unstake mv.fromP mv.amount, ChainAction.waitTx unstakeTxHash],
        [TxStatus.pending, TxStatus.executing, TxStatus.failed]⟩

/-- In-place amount adjustment of one map entry, modelling the mutation
`position.currentAmount += delta` on the object returned by
`positions.get(name)`; absent name means no change. -/
def adjustAmount (name : String) (delta : ℤ) :
    List (String × Position) → List (String × Position)
  | [] => []
  | (k, v) :: rest =>
    if k = name then (k, { v with currentAmount := v.currentAmount + delta }) :: rest
    else (k, v) :: adjustAmount name delta rest

/-- Percentage recomputation `updatePositionPercentages` (lines 409-419):
no-op on a zero total, otherwise each position's percentage becomes
`Number((currentAmount * 10000n) / totalValue) / 100` with truncating
`bigint` division. -/
def updatePositionPercentages (positions : List (String × Position)) :
    List (String × Position) :=
  let totalValue := getTotalPortfolioValue positions
  if totalValue = 0 then positions
  else positions.map (fun kv =>
    (kv.1, { kv.2 with currentPercentage :=
      ((Int.tdiv (kv.2.currentAmount * 10000) totalValue : ℤ) : ℚ) / 100 }))

/-- Post-completion position update `updatePositionAmounts` (lines 390-407):
decrement the source amount, increment the destination amount (each only if
present), then recompute every percentage. -/
def updatePositionAmounts (fromProtocol toProtocol : String) (amount : ℤ)
    (positions : List (String × Position)) : List (String × Position) :=
  updatePositionPercentages
    (adjustAmount toProtocol amount (adjustAmount fromProtocol (-amount) positions))

/-- Movement loop of `executeRebalance` (lines 246-265): execute each
movement strictly in order, apply the position update after a completed
movement, and collect every movement's transaction outcome. -/
def executeMovements (svc : BlockchainService) (movements : List Movement)
    (positions : List (String × Position)) :
    List MovementResult × List (String × Position) :=
  match movements with
  | [] => ([], positions)
  | mv :: rest =>
    let r := executeMovement svc mv
    let positions' :=
      if r.status = TxStatus.completed
      then updatePositionAmounts mv.fromP mv.toP mv.amount positions
      else positions
    let tail := executeMovements svc rest positions'
    (r :: tail.1, tail.2)

/-- Rebalance executor `executeRebalance` (lines 237-272): plan the
movements for the candidate strategy from the current positions and total
portfolio value, then run them in order. -/
def executeRebalance (svc : BlockchainService)
    (newStrategy : OptimizationStrategy ℚ)
    (positions : List (String × Position)) :
    List MovementResult × List (String × Position) :=
  executeMovements svc
    (calculateRequiredMovements newStrategy positions (getTotalPortfolioValue positions))
    positions

/-- Protocol metadata, from `StakingProtocol` in `types/index.ts`
(the `address` and `type` fields are not read by the risk analyzer and are
omitted); `totalStaked` is `bigint` (`ℤ`), the rest are `number` (`ℚ`). -/
structure StakingProtocol where
  name : String
  currentAPR : ℚ
  exchangeRate : ℚ
  totalStaked : ℤ
  riskScore : ℚ
  gasEfficiency : ℚ
  withdrawalDelay : ℚ
  maxAllocation : ℚ
deriving DecidableEq, Repr

/-- Concentration risk `RiskAnalyzer.calculateConcentrationRisk` in
`risk-analyzer.ts` (part_003 lines 71-90): Herfindahl-Hirschman index of
staked-value shares, scaled by 10; zero total yields 0. -/
def calculateConcentrationRisk (protocols : List StakingProtocol) : ℚ :=
  let totalTVL : ℚ := (protocols.map (fun p => (p.totalStaked : ℚ))).sum
  if totalTVL = 0 then 0
  else ((protocols.map (fun p =>
    ((p.totalStaked : ℚ) / totalTVL) * ((p.totalStaked : ℚ) / totalTVL))).sum) * 10

/-- Market snapshot, from `MarketData` in `types/index.ts`: gas price,
reference asset price, and per-protocol yield and risk maps. -/
structure MarketData where
  gasPrice : ℝ
  ethPrice : ℝ
  protocolAPRs : List (String × ℝ)
  protocolRisks : List (String × ℝ)

/-- Risk-adjusted return pass of `optimizeAllocation` (lines 79-83):
`apr * (1 - risk / 100)` per protocol in the yield map, with a missing risk
entry defaulting to 0 (`protocolRisks.get(protocolName) || 0`). -/
noncomputable def riskAdjustedReturns (md : MarketData) : List (String × ℝ) :=
  md.protocolAPRs.map (fun pa =>
    (pa.1, pa.2 * (1 - ((lookupA pa.1 md.protocolRisks).getD 0) / 100)))

/-- Base allocation table `getBaseAllocation` (lines 138-147); unknown
protocols default to 15. -/
noncomputable def getBaseAllocation (protocolName : String) : ℝ :=
  if protocolName = "lido" then 30
  else if protocolName = "rocketpool" then 25
  else if protocolName = "etherfi" then 25
  else if protocolName = "morpho" then 20
  else 15

/-- Allocation-cap table `getMaxAllocation` of the repository's second
`YieldOptimizer` module (src/unnamed/part_002 lines 135-144); unknown
protocols default to 25. This is the per-protocol configured cap referred
to by the specification; the optimizer in `yield-optimizer.ts` never
consults it. -/
noncomputable def getMaxAllocation (protocol : String) : ℝ :=
  if protocol = "lido" then 40
  else if protocol = "etherfi" then 30
  else if protocol = "rocketpool" then 30
  else if protocol = "morpho" then 20
  else 25

/-- Risk multiplier `getRiskMultiplier` (lines 149-160), keyed by the
active strategy's tolerance. -/
noncomputable def getRiskMultiplier (tolerance : RiskTolerance) (riskScore : ℝ) : ℝ :=
  match tolerance with
  | RiskTolerance.conservative => max 0.5 (1 - riskScore / 50)
  | RiskTolerance.aggressive => min 1.5 (1 + riskScore / 100)
  | RiskTolerance.moderate => max 0.7 (1 - riskScore / 100)

/-- Performance multiplier `getPerformanceMultiplier` (lines 162-166):
`1 + tanh((return - 7) / 5) * 0.3`. -/
noncomputable def getPerformanceMultiplier (return_ : ℝ) : ℝ :=
  1 + Real.tanh ((return_ - 7) / 5) * 0.3

/-- Stable descending insertion by second component, modelling
`Array.sort(([,a],[,b]) => b - a)` (line 114-115): an element is placed
before the first strictly smaller value, after equal ones. -/
noncomputable def insertDescR (x : String × ℝ) :
    List (String × ℝ) → List (String × ℝ)
  | [] => [x]
  | y :: rest => if y.2 ≤ x.2 then x :: y :: rest else y :: insertDescR x rest

/-- Sort a protocol/return list descending by return (lines 113-115). -/
noncomputable def sortByReturnDesc : List (String × ℝ) → List (String × ℝ)
  | [] => []
  | x :: rest => insertDescR x (sortByReturnDesc rest)

/-- Greedy allocation walk of `calculateOptimalAllocations` (lines 117-133):
in sorted order, compute `base * riskMultiplier * performanceMultiplier`,
clamp it to the remaining unallocated percentage, subtract, and record. -/
noncomputable def allocLoop (tolerance : RiskTolerance)
    (risks : List (String × ℝ)) :
    List (String × ℝ) → ℝ → List (String × ℝ)
  | [], _ => []
  | (protocolName, return_) :: rest, remainingAllocation =>
    let baseAllocation := getBaseAllocation protocolName
    let riskMultiplier :=
      getRiskMultiplier tolerance ((lookupA protocolName risks).getD 0)
    let performanceMultiplier := getPerformanceMultiplier return_
    let allocation₀ := baseAllocation * riskMultiplier * performanceMultiplier
    let allocation := min allocation₀ remainingAllocation
    (protocolName, allocation) ::
      allocLoop tolerance risks rest (remainingAllocation - allocation)

/-- Allocation computation `calculateOptimalAllocations` (lines 107-136):
sort by risk-adjusted return, then run the greedy walk from 100. -/
noncomputable def calculateOptimalAllocations (tolerance : RiskTolerance)
    (rars : List (String × ℝ)) (risks : List (String × ℝ)) :
    List (String × ℝ) :=
  allocLoop tolerance risks (sortByReturnDesc rars) 100

/-- Expected APR `calculateExpectedAPR` (lines 168-180): allocation-weighted
yield, with a missing yield entry defaulting to 0
(`protocolAPRs.get(protocol) || 0`). -/
noncomputable def calculateExpectedAPR (allocations : List (String × ℝ))
    (protocolAPRs : List (String × ℝ)) : ℝ :=
  (allocations.map (fun pa =>
    (pa.2 / 100) * ((lookupA pa.1 protocolAPRs).getD 0))).sum

/-- Overall risk `calculateOverallRisk` (lines 182-188): plain arithmetic
mean of the risk map's values (an empty map gives 0/0, which JavaScript
renders as NaN and this real-arithmetic model as 0). -/
noncomputable def calculateOverallRisk (protocolRisks : List (String × ℝ)) : ℝ :=
  (protocolRisks.map (fun pr => pr.2)).sum / protocolRisks.length

/-- Gas-threshold adjustment `adjustGasThreshold` (lines 190-200): raise
the ceiling by 20% when gas is below half the base threshold, lower it by
20% when above 1.5x, else keep the base. -/
noncomputable def adjustGasThreshold (baseThreshold currentGasPrice : ℝ) : ℝ :=
  if currentGasPrice < baseThreshold * 0.5 then baseThreshold * 1.2
  else if currentGasPrice > baseThreshold * 1.5 then baseThreshold * 0.8
  else baseThreshold

/-- Allocation optimizer `optimizeAllocation` (lines 73-105): assemble the
candidate strategy from the snapshot, carrying over the active strategy's
rebalance threshold and tolerance and the configured base gas threshold. -/
noncomputable def optimizeAllocation (tolerance : RiskTolerance)
    (rebalanceThreshold baseGasThreshold : ℝ) (md : MarketData) :
    OptimizationStrategy ℝ :=
  let newAllocations :=
    calculateOptimalAllocations tolerance (riskAdjustedReturns md) md.protocolRisks
  ⟨newAllocations,
    calculateExpectedAPR newAllocations md.protocolAPRs,
    calculateOverallRisk md.protocolRisks,
    rebalanceThreshold,
    adjustGasThreshold baseGasThreshold md.gasPrice,
    tolerance⟩

/-- Sum of the allocation percentages of a strategy's allocation map. -/
def sumAllocations (allocations : List (String × ℝ)) : ℝ :=
  (allocations.map (fun pa => pa.2)).sum

/-- Sum of the amounts in a surplus or deficit list. -/
def sumSnd (l : List (String × ℤ)) : ℤ :=
  (l.map (fun e => e.2)).sum

/-- Sum of the amounts of a movement list. -/
def movedSum (l : List Movement) : ℤ :=
  (l.map (fun mv => mv.amount)).sum

/-- Settlement collaborator whose withdrawal submissions always return no
reference. -/
def svcAllFail : BlockchainService :=
  ⟨fun _ _ => none, fun _ _ => none, fun _ => false⟩

/-- A sample movement from lido to morpho. -/
def mvLM : Movement :=
  ⟨"lido", "morpho", 5⟩

/-- A candidate strategy whose target allocations sum to 150 > 100. -/
def strategyOver : OptimizationStrategy ℚ :=
  ⟨[("lido", 150), ("morpho", 0)], 0, 0, 0, 0, RiskTolerance.moderate⟩

/-- Two equal positions of 50 units (total portfolio value 100). -/
def positionsHalf : List (String × Position) :=
  [("lido", ⟨50, 0, 50, 0⟩), ("morpho", ⟨50, 0, 50, 0⟩)]

/-- A position store fully concentrated in lido (current percentage 100),
drifted away from the default strategy's targets. -/
def positionsDrift : List (String × Position) :=
  [("lido", ⟨100, 0, 100, 0⟩)]

/-- A position store whose current percentages exactly match the default
strategy's target allocations. -/
def positionsAligned : List (String × Position) :=
  [("lido", ⟨35, 0, 35, 0⟩), ("rocketpool", ⟨25, 0, 25, 0⟩),
    ("etherfi", ⟨25, 0, 25, 0⟩), ("morpho", ⟨15, 0, 15, 0⟩)]

/-- Two positions of 70 and 30 units. -/
def positionsTwo : List (String × Position) :=
  [("lido", ⟨70, 0, 70, 0⟩), ("morpho", ⟨30, 0, 30, 0⟩)]

/-- A protocol record with a given name and staked total (other fields at
representative values). -/
def mkProtocol (name : String) (staked : ℤ) : StakingProtocol :=
  ⟨name, 8, 1, staked, 1, 85, 1, 40⟩

/-- Snapshot with a single protocol morpho: APR 70/9 and risk 10, so the
risk-adjusted return is exactly the baseline 7. -/
noncomputable def mdMorpho : MarketData :=
  ⟨50, 0, [("morpho", 70 / 9)], [("morpho", 10)]⟩

/-- Snapshot whose yield map contains lido but whose risk map is empty. -/
noncomputable def mdLido : MarketData :=
  ⟨0, 0, [("lido", 10)], []⟩

theorem executeMovements_fst (svc : BlockchainService) (movements : List Movement)
    (positions : List (String × Position)) :
    (executeMovements svc movements positions).1
      = movements.map (executeMovement svc) := by
  induction movements generalizing positions with
  | nil => rfl
  | cons mv rest ih => simp [executeMovements, ih]

/-- Claim C7: every transaction's status trace is
pending → executing → (completed or failed); the terminal value is the
last entry of the trace, so no transition leaves a terminal state. -/
theorem claim7_status_state_machine (svc : BlockchainService) (mv : Movement) :
    (executeMovement svc mv).trace
      = [TxStatus.pending, TxStatus.executing, (executeMovement svc mv).status] ∧
    ((executeMovement svc mv).status = TxStatus.completed ∨
      (executeMovement svc mv).status = TxStatus.failed) := by
  cases hu : svc.executeUnstake mv.fromP mv.amount with
  | none => simp [executeMovement, hu]
  | some uh =>
    cases hw : svc.waitForTransaction uh with
    | false => simp [executeMovement, hu, hw]
    | true =>
      cases hs : svc.executeStake mv.toP mv.amount with
      | none => simp [executeMovement, hu, hw, hs]
      | some sh =>
        cases hw2 : svc.waitForTransaction sh with
        | false => simp [executeMovement, hu, hw, hs, hw2]
        | true => simp [executeMovement, hu, hw, hs, hw2]

/-- Claim C3: when the settlement collaborator returns no reference for a
movement's withdrawal submission, that movement's transaction ends in
status failed, no deposit (stake) call is made for it, and the executor's
transaction list is still the pointwise execution of every movement in
order, so sibling movements are unaffected. -/
theorem claim3_withdrawal_failure_isolated (svc : BlockchainService)
    (movements : List Movement) (positions : List (String × Position))
    (mv : Movement) (hmem : mv ∈ movements)
    (hnone : svc.executeUnstake mv.fromP mv.amount = none) :
    (executeMovement svc mv).status = TxStatus.failed ∧
    (∀ a ∈ (executeMovement svc mv).calls, a.isStake = false) ∧
    executeMovement svc mv ∈ (executeMovements svc movements positions).1 ∧
    (executeMovements svc movements positions).1
      = movements.map (executeMovement svc) := by
  refine ⟨?_, ?_, ?_, executeMovements_fst svc movements positions⟩
  · simp [executeMovement, hnone]
  · simp [executeMovement, hnone, ChainAction.isStake]
  · rw [executeMovements_fst]
    exact List.mem_map_of_mem (executeMovement svc) hmem

theorem claim3_witness :
    mvLM ∈ [mvLM] ∧
    svcAllFail.executeUnstake mvLM.fromP mvLM.amount = none ∧
    ((executeMovement svcAllFail mvLM).status = TxStatus.failed ∧
      (∀ a ∈ (executeMovement svcAllFail mvLM).calls, a.isStake = false) ∧
      executeMovement svcAllFail mvLM ∈ (executeMovements svcAllFail [mvLM] []).1 ∧
      (executeMovements svcAllFail [mvLM] []).1
        = [mvLM].map (executeMovement svcAllFail)) :=
  ⟨List.mem_singleton_self mvLM, rfl,
    claim3_withdrawal_failure_isolated svcAllFail [mvLM] [] mvLM
      (List.mem_singleton_self mvLM) rfl⟩

theorem allocLoop_sum_le (tolerance : RiskTolerance)
    (risks : List (String × ℝ)) (l : List (String × ℝ)) (r : ℝ)
    (hr : 0 ≤ r) : sumAllocations (allocLoop tolerance risks l r) ≤ r := by
  induction l generalizing r with
  | nil => simpa [allocLoop, sumAllocations]
  | cons hd rest ih =>
    obtain ⟨p, ret⟩ := hd
    simp only [allocLoop, sumAllocations, List.map_cons, List.sum_cons]
    have hmin : min (getBaseAllocation p *
        getRiskMultiplier tolerance ((lookupA p risks).getD 0) *
        getPerformanceMultiplier ret) r ≤ r := min_le_right _ _
    have ih' := ih (r - min (getBaseAllocation p *
        getRiskMultiplier tolerance ((lookupA p risks).getD 0) *
        getPerformanceMultiplier ret) r) (by linarith)
    simp only [sumAllocations] at ih'
    linarith

/-- Claim C6: every strategy generated by the allocation optimizer has
target allocations summing to at most 100 (exactly, in this
real-arithmetic model). -/
theorem claim6_allocations_sum_le_100 (tolerance : RiskTolerance)
    (rebalanceThreshold baseGasThreshold : ℝ) (md : MarketData) :
    sumAllocations (optimizeAllocation tolerance rebalanceThreshold
      baseGasThreshold md).targetAllocations ≤ 100 := by
  have h := allocLoop_sum_le tolerance md.protocolRisks
    (sortByReturnDesc (riskAdjustedReturns md)) 100 (by norm_num)
  simpa [optimizeAllocation, calculateOptimalAllocations] using h

theorem sumSnd_nil : sumSnd [] = 0 := rfl

theorem sumSnd_cons (e : String × ℤ) (l : List (String × ℤ)) :
    sumSnd (e :: l) = e.2 + sumSnd l := by
  simp [sumSnd]

theorem sumSnd_append (a b : List (String × ℤ)) :
    sumSnd (a ++ b) = sumSnd a + sumSnd b := by
  simp [sumSnd]

theorem sumSnd_nonneg (l : List (String × ℤ)) (h : ∀ e ∈ l, 0 < e.2) :
    0 ≤ sumSnd l := by
  induction l with
  | nil => simp [sumSnd]
  | cons hd rest ih =>
    rw [sumSnd_cons]
    have h1 := h hd (List.mem_cons_self _ _)
    have h2 := ih (fun e he => h e (List.mem_cons_of_mem _ he))
    omega

theorem movedSum_cons (mv : Movement) (l : List Movement) :
    movedSum (mv :: l) = mv.amount + movedSum l := by
  simp [movedSum]

theorem matchOne_spec (fromP : String) (deficits : List (String × ℤ)) :
    ∀ s : ℤ, 0 ≤ s → (∀ e ∈ deficits, 0 < e.2) →
    movedSum (matchOne fromP s deficits).1 = min s (sumSnd deficits) ∧
    sumSnd (matchOne fromP s deficits).2
      = sumSnd deficits - min s (sumSnd deficits) ∧
    (∀ e ∈ (matchOne fromP s deficits).2, 0 < e.2) ∧
    (∀ mv ∈ (matchOne fromP s deficits).1, 0 < mv.amount) := by
  induction deficits with
  | nil =>
    intro s hs _
    refine ⟨?_, ?_, ?_, ?_⟩ <;> simp [matchOne, movedSum, sumSnd] <;> omega
  | cons hd rest ih =>
    intro s hs hpos
    obtain ⟨toP, d⟩ := hd
    have hd0 : 0 < d := hpos (toP, d) (List.mem_cons_self _ _)
    have hrest : ∀ e ∈ rest, 0 < e.2 := fun e he => hpos e (List.mem_cons_of_mem _ he)
    have hrs : 0 ≤ sumSnd rest := sumSnd_nonneg rest hrest
    by_cases hs0 : s = 0
    · subst hs0
      refine ⟨?_, ?_, ?_, ?_⟩
      · simp [matchOne, movedSum, sumSnd_cons]
        omega
      · simp [matchOne, sumSnd_cons]
        omega
      · simpa [matchOne] using hpos
      · simp [matchOne]
    · have hspos : 0 < s := lt_of_le_of_ne hs (Ne.symm hs0)
      have hm0 : 0 < min s d := lt_min hspos hd0
      have hms : min s d ≤ s := min_le_left _ _
      have hmd : min s d ≤ d := min_le_right _ _
      obtain ⟨ih1, ih2, ih3, ih4⟩ := ih (s - min s d) (by omega) hrest
      have hnext1 : movedSum (matchOne fromP s ((toP, d) :: rest)).1
          = min s d + movedSum (matchOne fromP (s - min s d) rest).1 := by
        simp [matchOne, hs0, movedSum_cons]
      have hnext2 : sumSnd (matchOne fromP s ((toP, d) :: rest)).2
          = (if d - min s d = 0 then 0 else d - min s d)
            + sumSnd (matchOne fromP (s - min s d) rest).2 := by
        by_cases hdm : d - min s d = 0 <;>
          simp [matchOne, hs0, hdm, sumSnd_append, sumSnd_cons]
      refine ⟨?_, ?_, ?_, ?_⟩
      · rw [hnext1, ih1, sumSnd_cons]
        omega
      · rw [hnext2, ih2, sumSnd_cons]
        by_cases hdm : d - min s d = 0 <;> simp [hdm] <;> omega
      · intro e he
        simp only [matchOne, if_neg hs0] at he
        rcases List.mem_append.mp he with h1 | h2
        · by_cases hdm : d - min s d = 0
          · simp [hdm] at h1
          · simp [hdm] at h1
            subst h1
            omega
        · exact ih3 e h2
      · intro mv hmv
        simp only [matchOne, if_neg hs0] at hmv
        rcases List.mem_cons.mp hmv with h1 | h2
        · subst h1
          exact hm0
        · exact ih4 mv h2

theorem matchAll_spec (surpluses : List (String × ℤ)) :
    ∀ deficits : List (String × ℤ),
    (∀ e ∈ surpluses, 0 < e.2) → (∀ e ∈ deficits, 0 < e.2) →
    movedSum (matchAll surpluses deficits)
      = min (sumSnd surpluses) (sumSnd deficits) ∧
    ∀ mv ∈ matchAll surpluses deficits, 0 < mv.amount := by
  induction surpluses with
  | nil =>
    intro deficits _ hd
    have h0 := sumSnd_nonneg deficits hd
    constructor
    · simp [matchAll, movedSum, sumSnd_nil]
      omega
    · simp [matchAll]
  | cons hd rest ih =>
    intro deficits hs hdpos
    obtain ⟨p, s⟩ := hd
    have hs0 : 0 < s := hs (p, s) (List.mem_cons_self _ _)
    have hsrest : ∀ e ∈ rest, 0 < e.2 := fun e he => hs e (List.mem_cons_of_mem _ he)
    have hsr : 0 ≤ sumSnd rest := sumSnd_nonneg rest hsrest
    have hd0 : 0 ≤ sumSnd deficits := sumSnd_nonneg deficits hdpos
    obtain ⟨m1, m2, m3, m4⟩ := matchOne_spec p deficits s hs0.le hdpos
    obtain ⟨ihsum, ihpos⟩ := ih (matchOne p s deficits).2 hsrest m3
    constructor
    · have : movedSum (matchAll ((p, s) :: rest) deficits)
          = movedSum (matchOne p s deficits).1
            + movedSum (matchAll rest (matchOne p s deficits).2) := by
        simp [matchAll, movedSum]
      rw [this, m1, ihsum, m2, sumSnd_cons]
      omega
    · intro mv hmv
      simp only [matchAll, List.mem_append] at hmv
      rcases hmv with h1 | h2
      · exact m4 mv h1
      · exact ihpos mv h2

theorem buildSurplusesDeficits_pos (targets : List (String × ℚ))
    (positions : List (String × Position)) (totalValue : ℤ) :
    (∀ e ∈ (buildSurplusesDeficits targets positions totalValue).1, 0 < e.2) ∧
    (∀ e ∈ (buildSurplusesDeficits targets positions totalValue).2, 0 < e.2) := by
  induction targets with
  | nil => simp [buildSurplusesDeficits]
  | cons hd rest ih =>
    obtain ⟨p, pct⟩ := hd
    obtain ⟨ih1, ih2⟩ := ih
    cases hl : lookupA p positions with
    | none =>
      constructor <;> intro e he <;>
        simp only [buildSurplusesDeficits, hl] at he
      · exact ih1 e he
      · exact ih2 e he
    | some pos =>
      by_cases hgt : 0 < targetAmountOf totalValue pct - pos.currentAmount
      · constructor <;> intro e he <;>
          simp only [buildSurplusesDeficits, hl, if_pos hgt] at he
        · exact ih1 e he
        · rcases List.mem_cons.mp he with h1 | h2
          · subst h1
            exact hgt
          · exact ih2 e h2
      · by_cases hlt : targetAmountOf totalValue pct - pos.currentAmount < 0
        · constructor <;> intro e he <;>
            simp only [buildSurplusesDeficits, hl, if_neg hgt, if_pos hlt] at he
          · rcases List.mem_cons.mp he with h1 | h2
            · subst h1
              omega
            · exact ih1 e h2
          · exact ih2 e he
        · constructor <;> intro e he <;>
            simp only [buildSurplusesDeficits, hl, if_neg hgt, if_neg hlt] at he
          · exact ih1 e he
          · exact ih2 e he

/-- Claim C5: the movement planner conserves value: the total moved amount
equals the minimum of total surplus and total deficit over the classified
protocols, and no emitted movement has amount 0. -/
theorem claim5_movement_conservation (strategy : OptimizationStrategy ℚ)
    (positions : List (String × Position)) (totalValue : ℤ) :
    movedSum (calculateRequiredMovements strategy positions totalValue)
      = min (sumSnd (buildSurplusesDeficits strategy.targetAllocations
              positions totalValue).1)
            (sumSnd (buildSurplusesDeficits strategy.targetAllocations
              positions totalValue).2) ∧
    ∀ mv ∈ calculateRequiredMovements strategy positions totalValue,
      mv.amount ≠ 0 := by
  obtain ⟨hs, hd⟩ := buildSurplusesDeficits_pos strategy.targetAllocations
    positions totalValue
  obtain ⟨h1, h2⟩ := matchAll_spec
    (buildSurplusesDeficits strategy.targetAllocations positions totalValue).1
    (buildSurplusesDeficits strategy.targetAllocations positions totalValue).2
    hs hd
  exact ⟨h1, fun mv hm => (h2 mv hm).ne'⟩

theorem movements_strategyOver_eval :
    calculateRequiredMovements strategyOver positionsHalf 100
      = [⟨"morpho", "lido", 50⟩] := by
  have hlido : targetAmountOf 100 150 = 150 := by
    have h : jsRound ((150 : ℚ) * 100) = 15000 := by norm_num [jsRound]
    rw [targetAmountOf, h]
    decide
  have hmorpho : targetAmountOf 100 0 = 0 := by
    have h : jsRound ((0 : ℚ) * 100) = 0 := by norm_num [jsRound]
    rw [targetAmountOf, h]
    decide
  norm_num [calculateRequiredMovements, strategyOver, buildSurplusesDeficits,
    lookupA, positionsHalf, hlido, hmorpho, matchAll, matchOne]

theorem claim5_witness :
    movedSum (calculateRequiredMovements strategyOver positionsHalf 100)
      = min (sumSnd (buildSurplusesDeficits strategyOver.targetAllocations
              positionsHalf 100).1)
            (sumSnd (buildSurplusesDeficits strategyOver.targetAllocations
              positionsHalf 100).2) ∧
    (⟨"morpho", "lido", 50⟩ : Movement).amount ≠ 0 :=
  ⟨(claim5_movement_conservation strategyOver positionsHalf 100).1,
    (claim5_movement_conservation strategyOver positionsHalf 100).2
      ⟨"morpho", "lido", 50⟩
      (by rw [movements_strategyOver_eval]; exact List.mem_singleton_self _)⟩

theorem matchOne_keys (fromP : String) (deficits : List (String × ℤ)) (s : ℤ) :
    (∀ mv ∈ (matchOne fromP s deficits).1,
      mv.fromP = fromP ∧ ∃ d, (mv.toP, d) ∈ deficits) ∧
    (∀ e ∈ (matchOne fromP s deficits).2, ∃ d, (e.1, d) ∈ deficits) := by
  induction deficits generalizing s with
  | nil => simp [matchOne]
  | cons hd rest ih =>
    obtain ⟨toP, d⟩ := hd
    by_cases hs0 : s = 0
    · subst hs0
      constructor
      · simp [matchOne]
      · intro e he
        simp only [matchOne, if_pos rfl] at he
        exact ⟨e.2, by simpa using he⟩
    · obtain ⟨ih1, ih2⟩ := ih (s - min s d)
      constructor
      · intro mv hmv
        simp only [matchOne, if_neg hs0] at hmv
        rcases List.mem_cons.mp hmv with h1 | h2
        · subst h1
          exact ⟨rfl, d, List.mem_cons_self _ _⟩
        · obtain ⟨hf, dd, hdd⟩ := ih1 mv h2
          exact ⟨hf, dd, List.mem_cons_of_mem _ hdd⟩
      · intro e he
        simp only [matchOne, if_neg hs0] at he
        rcases List.mem_append.mp he with h1 | h2
        · by_cases hdm : d - min s d = 0
          · simp [hdm] at h1
          · simp only [if_neg hdm, List.mem_singleton] at h1
            subst h1
            exact ⟨d, List.mem_cons_self _ _⟩
        · obtain ⟨dd, hdd⟩ := ih2 e h2
          exact ⟨dd, List.mem_cons_of_mem _ hdd⟩

theorem matchAll_keys (surpluses : List (String × ℤ)) :
    ∀ (deficits : List (String × ℤ)) (mv : Movement),
    mv ∈ matchAll surpluses deficits →
    (∃ v, (mv.fromP, v) ∈ surpluses) ∧ (∃ v, (mv.toP, v) ∈ deficits) := by
  induction surpluses with
  | nil => simp [matchAll]
  | cons hd rest ih =>
    intro deficits mv hmv
    obtain ⟨p, s⟩ := hd
    simp only [matchAll, List.mem_append] at hmv
    rcases hmv with h1 | h2
    · obtain ⟨hf, dd, hdd⟩ := (matchOne_keys p deficits s).1 mv h1
      exact ⟨⟨s, by rw [hf]; exact List.mem_cons_self _ _⟩, dd, hdd⟩
    · obtain ⟨⟨v1, hv1⟩, v2, hv2⟩ := ih (matchOne p s deficits).2 mv h2
      obtain ⟨dd, hdd⟩ := (matchOne_keys p deficits s).2 (mv.toP, v2) hv2
      exact ⟨⟨v1, List.mem_cons_of_mem _ hv1⟩, dd, hdd⟩

theorem buildSurplusesDeficits_keys (targets : List (String × ℚ))
    (positions : List (String × Position)) (totalValue : ℤ) :
    (∀ e ∈ (buildSurplusesDeficits targets positions totalValue).1,
      (lookupA e.1 positions).isSome) ∧
    (∀ e ∈ (buildSurplusesDeficits targets positions totalValue).2,
      (lookupA e.1 positions).isSome) := by
  induction targets with
  | nil => simp [buildSurplusesDeficits]
  | cons hd rest ih =>
    obtain ⟨p, pct⟩ := hd
    obtain ⟨ih1, ih2⟩ := ih
    cases hl : lookupA p positions with
    | none =>
      constructor <;> intro e he <;>
        simp only [buildSurplusesDeficits, hl] at he
      · exact ih1 e he
      · exact ih2 e he
    | some pos =>
      by_cases hgt : 0 < targetAmountOf totalValue pct - pos.currentAmount
      · constructor <;> intro e he <;>
          simp only [buildSurplusesDeficits, hl, if_pos hgt] at he
        · exact ih1 e he
        · rcases List.mem_cons.mp he with h1 | h2
          · subst h1
            simp [hl]
          · exact ih2 e h2
      · by_cases hlt : targetAmountOf totalValue pct - pos.currentAmount < 0
        · constructor <;> intro e he <;>
            simp only [buildSurplusesDeficits, hl, if_neg hgt, if_pos hlt] at he
          · rcases List.mem_cons.mp he with h1 | h2
            · subst h1
              simp [hl]
            · exact ih1 e h2
          · exact ih2 e he
        · constructor <;> intro e he <;>
            simp only [buildSurplusesDeficits, hl, if_neg hgt, if_neg hlt] at he
          · exact ih1 e he
          · exact ih2 e he

/-- Claim C4 counterexample: a candidate strategy whose target allocations
sum to 150 > 100 is not rejected; the planner still generates a movement. -/
theorem claim4_counterexample :
    (strategyOver.targetAllocations.map (fun pa => pa.2)).sum > 100 ∧
    calculateRequiredMovements strategyOver positionsHalf 100
      = [⟨"morpho", "lido", 50⟩] ∧
    calculateRequiredMovements strategyOver positionsHalf 100 ≠ [] := by
  refine ⟨by norm_num [strategyOver], movements_strategyOver_eval, ?_⟩
  rw [movements_strategyOver_eval]
  simp

/-- Claim C4 as amended: no validation of the candidate strategy is
performed. An over-100 allocation sum still produces movements (see the
counterexample); a target entry whose protocol has no position is silently
skipped, so every emitted movement refers only to protocols that do have
positions in the store, and no rejection is reported. -/
theorem claim4_amended_no_validation (strategy : OptimizationStrategy ℚ)
    (positions : List (String × Position)) (totalValue : ℤ) (mv : Movement)
    (hmv : mv ∈ calculateRequiredMovements strategy positions totalValue) :
    (lookupA mv.fromP positions).isSome ∧ (lookupA mv.toP positions).isSome := by
  obtain ⟨⟨v1, hv1⟩, v2, hv2⟩ := matchAll_keys
    (buildSurplusesDeficits strategy.targetAllocations positions totalValue).1
    (buildSurplusesDeficits strategy.targetAllocations positions totalValue).2
    mv hmv
  obtain ⟨h1, h2⟩ := buildSurplusesDeficits_keys strategy.targetAllocations
    positions totalValue
  exact ⟨h1 (mv.fromP, v1) hv1, h2 (mv.toP, v2) hv2⟩

theorem claim4_witness :
    (lookupA (Movement.fromP ⟨"morpho", "lido", 50⟩) positionsHalf).isSome ∧
    (lookupA (Movement.toP ⟨"morpho", "lido", 50⟩) positionsHalf).isSome :=
  claim4_amended_no_validation strategyOver positionsHalf 100
    ⟨"morpho", "lido", 50⟩
    (by rw [movements_strategyOver_eval]; exact List.mem_singleton_self _)

theorem getTotal_cons (k : String) (v : Position) (ps : List (String × Position)) :
    getTotalPortfolioValue ((k, v) :: ps) = v.currentAmount + getTotalPortfolioValue ps := by
  simp [getTotalPortfolioValue]

theorem lookupA_adjustAmount_self (name : String) (delta : ℤ)
    (ps : List (String × Position)) :
    lookupA name (adjustAmount name delta ps)
      = (lookupA name ps).map
          (fun v => { v with currentAmount := v.currentAmount + delta }) := by
  induction ps with
  | nil => rfl
  | cons hd rest ih =>
    obtain ⟨k, v⟩ := hd
    by_cases hk : k = name
    · subst hk
      simp [adjustAmount, lookupA]
    · simp [adjustAmount, lookupA, hk, ih]

theorem lookupA_adjustAmount_ne (q name : String) (delta : ℤ)
    (ps : List (String × Position)) (h : q ≠ name) :
    lookupA q (adjustAmount name delta ps) = lookupA q ps := by
  induction ps with
  | nil => rfl
  | cons hd rest ih =>
    obtain ⟨k, v⟩ := hd
    by_cases hk : k = name
    · subst hk
      have hkq : ¬ (k = q) := fun hh => h (hh.symm)
      simp [adjustAmount, lookupA, hkq]
    · by_cases hq : k = q
      · subst hq
        simp [adjustAmount, lookupA, hk]
      · simp [adjustAmount, lookupA, hk, hq, ih]

theorem getTotal_adjustAmount (name : String) (delta : ℤ)
    (ps : List (String × Position)) :
    getTotalPortfolioValue (adjustAmount name delta ps)
      = getTotalPortfolioValue ps
        + (if (lookupA name ps).isSome then delta else 0) := by
  induction ps with
  | nil => simp [adjustAmount, getTotalPortfolioValue, lookupA]
  | cons hd rest ih =>
    obtain ⟨k, v⟩ := hd
    by_cases hk : k = name
    · subst hk
      simp [adjustAmount, lookupA, getTotal_cons]
      omega
    · simp only [adjustAmount, if_neg hk, getTotal_cons, lookupA, ih]
      omega

theorem lookupA_mapValues (g : Position → Position) (q : String)
    (ps : List (String × Position)) :
    lookupA q (ps.map (fun kv => (kv.1, g kv.2))) = (lookupA q ps).map g := by
  induction ps with
  | nil => rfl
  | cons hd rest ih =>
    obtain ⟨k, v⟩ := hd
    by_cases hk : k = q
    · subst hk
      simp [lookupA]
    · simp [lookupA, hk, ih]

theorem lookupA_pctMap (t : ℤ) (q : String) (ps : List (String × Position)) :
    (lookupA q (ps.map (fun kv => (kv.1, { kv.2 with currentPercentage :=
        ((Int.tdiv (kv.2.currentAmount * 10000) t : ℤ) : ℚ) / 100 })))).map
      (fun v => v.currentAmount)
      = (lookupA q ps).map (fun v => v.currentAmount) := by
  induction ps with
  | nil => rfl
  | cons hd rest ih =>
    obtain ⟨k, v⟩ := hd
    by_cases hk : k = q
    · subst hk
      simp [lookupA]
    · simp only [List.map_cons, lookupA, if_neg hk]
      exact ih

theorem total_pctMap (t : ℤ) (ps : List (String × Position)) :
    getTotalPortfolioValue (ps.map (fun kv => (kv.1, { kv.2 with currentPercentage :=
        ((Int.tdiv (kv.2.currentAmount * 10000) t : ℤ) : ℚ) / 100 })))
      = getTotalPortfolioValue ps := by
  induction ps with
  | nil => rfl
  | cons hd rest ih =>
    obtain ⟨k, v⟩ := hd
    simp only [List.map_cons, getTotal_cons]
    rw [ih]

theorem updatePositionPercentages_amount (q : String)
    (ps : List (String × Position)) :
    (lookupA q (updatePositionPercentages ps)).map (fun v => v.currentAmount)
      = (lookupA q ps).map (fun v => v.currentAmount) := by
  simp only [updatePositionPercentages]
  by_cases h : getTotalPortfolioValue ps = 0
  · simp [h]
  · rw [if_neg h]
    exact lookupA_pctMap (getTotalPortfolioValue ps) q ps

theorem updatePositionPercentages_total (ps : List (String × Position)) :
    getTotalPortfolioValue (updatePositionPercentages ps)
      = getTotalPortfolioValue ps := by
  simp only [updatePositionPercentages]
  by_cases h : getTotalPortfolioValue ps = 0
  · simp [h]
  · rw [if_neg h]
    exact total_pctMap (getTotalPortfolioValue ps) ps

/-- Claim C10: when both the source and destination protocols have
positions, the executor's position update decrements the source amount and
increments the destination amount by exactly the moved amount, leaves every
other position's amount unchanged, and preserves the total portfolio
value. -/
theorem claim10_position_update_frame (ps : List (String × Position))
    (fromP toP : String) (amt : ℤ) (pf pt : Position)
    (hne : fromP ≠ toP)
    (hf : lookupA fromP ps = some pf) (ht : lookupA toP ps = some pt) :
    ((lookupA fromP (updatePositionAmounts fromP toP amt ps)).map
        (fun v => v.currentAmount) = some (pf.currentAmount - amt)) ∧
    ((lookupA toP (updatePositionAmounts fromP toP amt ps)).map
        (fun v => v.currentAmount) = some (pt.currentAmount + amt)) ∧
    (∀ q, q ≠ fromP → q ≠ toP →
      (lookupA q (updatePositionAmounts fromP toP amt ps)).map
          (fun v => v.currentAmount)
        = (lookupA q ps).map (fun v => v.currentAmount)) ∧
    getTotalPortfolioValue (updatePositionAmounts fromP toP amt ps)
      = getTotalPortfolioValue ps := by
  unfold updatePositionAmounts
  refine ⟨?_, ?_, ?_, ?_⟩
  · rw [updatePositionPercentages_amount,
      lookupA_adjustAmount_ne fromP toP amt _ hne,
      lookupA_adjustAmount_self, hf]
    simp
    omega
  · rw [updatePositionPercentages_amount, lookupA_adjustAmount_self,
      lookupA_adjustAmount_ne toP fromP (-amt) ps (Ne.symm hne), ht]
    simp
  · intro q hqf hqt
    rw [updatePositionPercentages_amount,
      lookupA_adjustAmount_ne q toP amt _ hqt,
      lookupA_adjustAmount_ne q fromP (-amt) ps hqf]
  · rw [updatePositionPercentages_total, getTotal_adjustAmount,
      getTotal_adjustAmount, lookupA_adjustAmount_ne toP fromP (-amt) ps (Ne.symm hne)]
    rw [hf, ht]
    simp

theorem claim10_witness :
    ("lido" ≠ "morpho") ∧
    (((lookupA "lido" (updatePositionAmounts "lido" "morpho" 20 positionsTwo)).map
        (fun v => v.currentAmount) = some 50) ∧
      ((lookupA "morpho" (updatePositionAmounts "lido" "morpho" 20 positionsTwo)).map
        (fun v => v.currentAmount) = some 50) ∧
      getTotalPortfolioValue (updatePositionAmounts "lido" "morpho" 20 positionsTwo)
        = getTotalPortfolioValue positionsTwo) := by
  have h := claim10_position_update_frame positionsTwo "lido" "morpho" 20
    ⟨70, 0, 70, 0⟩ ⟨30, 0, 30, 0⟩ (by decide) (by rfl) (by rfl)
  exact ⟨by decide, by simpa using h.1, by simpa using h.2.1, h.2.2.2⟩

/-- Claim C9: concentration risk is the Herfindahl-Hirschman index of
staked-value shares times 10: with positive total, a single holder yields
10, and any number of protocols with equal staked amounts yields
10 divided by the protocol count. -/
theorem claim9_concentration_is_hhi :
    (∀ (p0 : StakingProtocol) (rest : List StakingProtocol),
      0 < p0.totalStaked → (∀ q ∈ rest, q.totalStaked = 0) →
      calculateConcentrationRisk (p0 :: rest) = 10) ∧
    (∀ (ps : List StakingProtocol) (v : ℤ),
      0 < v → ps ≠ [] → (∀ p ∈ ps, p.totalStaked = v) →
      calculateConcentrationRisk ps = 10 / ps.length) := by
  constructor
  · intro p0 rest h0 hrest
    have hz : ∀ x ∈ rest.map (fun p => ((p.totalStaked : ℚ))), x = 0 := by
      intro x hx
      obtain ⟨q, hq, hfq⟩ := List.mem_map.mp hx
      rw [← hfq, hrest q hq]
      norm_num
    have htot : ((p0 :: rest).map (fun p => ((p.totalStaked : ℚ)))).sum
        = (p0.totalStaked : ℚ) := by
      simp only [List.map_cons, List.sum_cons]
      rw [List.sum_eq_zero hz, add_zero]
    have ht0 : (p0.totalStaked : ℚ) ≠ 0 := by
      exact_mod_cast h0.ne'
    simp only [calculateConcentrationRisk, List.map_cons, List.sum_cons]
    rw [List.sum_eq_zero hz, add_zero, if_neg ht0]
    have hzsq : ∀ x ∈ rest.map (fun p =>
        ((p.totalStaked : ℚ) / (p0.totalStaked : ℚ))
          * ((p.totalStaked : ℚ) / (p0.totalStaked : ℚ))), x = 0 := by
      intro x hx
      obtain ⟨q, hq, hfq⟩ := List.mem_map.mp hx
      rw [← hfq, hrest q hq]
      norm_num
    rw [List.sum_eq_zero hzsq, add_zero, div_self ht0]
    norm_num
  · intro ps v hv hne hall
    have hlen : 0 < ps.length := List.length_pos.mpr hne
    have hn0 : ((ps.length : ℚ)) ≠ 0 := by
      exact_mod_cast hlen.ne'
    have hv0 : ((v : ℚ)) ≠ 0 := by
      exact_mod_cast hv.ne'
    have htot : (ps.map (fun p => ((p.totalStaked : ℚ)))).sum
        = (ps.length : ℚ) * (v : ℚ) := by
      rw [List.sum_eq_card_nsmul (ps.map (fun p => ((p.totalStaked : ℚ)))) ((v : ℚ))
        (by intro x hx
            obtain ⟨q, hq, hfq⟩ := List.mem_map.mp hx
            rw [← hfq, hall q hq])]
      simp [nsmul_eq_mul]
    have htot0 : ((ps.length : ℚ)) * (v : ℚ) ≠ 0 := mul_ne_zero hn0 hv0
    simp only [calculateConcentrationRisk, htot, if_neg htot0]
    have hterm : ∀ x ∈ ps.map (fun p =>
        ((p.totalStaked : ℚ) / ((ps.length : ℚ) * (v : ℚ)))
          * ((p.totalStaked : ℚ) / ((ps.length : ℚ) * (v : ℚ)))),
        x = 1 / ((ps.length : ℚ) * (ps.length : ℚ)) := by
      intro x hx
      obtain ⟨q, hq, hfq⟩ := List.mem_map.mp hx
      rw [← hfq, hall q hq]
      field_simp
      ring
    rw [List.sum_eq_card_nsmul _ _ hterm]
    simp only [List.length_map, nsmul_eq_mul]
    field_simp

theorem claim9_witness :
    (0 : ℤ) < 80 ∧
    calculateConcentrationRisk [mkProtocol "lido" 80] = 10 ∧
    calculateConcentrationRisk [mkProtocol "lido" 50, mkProtocol "morpho" 50]
      = 5 := by
  refine ⟨by norm_num, ?_, ?_⟩
  · exact claim9_concentration_is_hhi.1 (mkProtocol "lido" 80) []
      (by norm_num [mkProtocol]) (by simp)
  · have h := claim9_concentration_is_hhi.2
      [mkProtocol "lido" 50, mkProtocol "morpho" 50] 50 (by norm_num)
      (by simp)
      (by intro p hp
          rcases List.mem_cons.mp hp with h1 | h2
          · subst h1
            rfl
          · rcases List.mem_cons.mp h2 with h3 | h4
            · subst h3
              rfl
            · simp at h4)
    rw [h]
    norm_num

/-- Claim C8 counterexample: calling the decision gate with the currently
active strategy as candidate does NOT always return false. With the default
strategy active but the positions fully concentrated in lido, the need is
130/100 > 0.05 and the gate triggers. -/
theorem claim8_counterexample :
    shouldRebalance defaultStrategy positionsDrift 10 defaultStrategy := by
  refine ⟨?_, ?_, ?_⟩
  · simp [calculateRebalanceNeed, defaultStrategy, positionsDrift, lookupA]
    norm_num
  · norm_num [checkGasConditions, defaultStrategy]
  · norm_num [checkRiskThresholds, defaultStrategy]

/-- Claim C8 as amended: the gate compares the candidate's targets against
the POSITION store's current percentages, not against the active strategy's
own allocation map; calling it with the active strategy as candidate
returns false exactly when every targeted protocol's current position
percentage equals its target (need = 0), given a nonnegative threshold. -/
theorem claim8_amended_self_rebalance_false
    (current : OptimizationStrategy ℚ) (positions : List (String × Position))
    (gasPrice : ℚ) (hth : 0 ≤ current.rebalanceThreshold)
    (hmatch : ∀ pt ∈ current.targetAllocations,
      ((lookupA pt.1 positions).map (fun pos => pos.currentPercentage)).getD 0
        = pt.2) :
    ¬ shouldRebalance current positions gasPrice current := by
  intro hsr
  obtain ⟨hneed, -, -⟩ := hsr
  have h0 : calculateRebalanceNeed current positions = 0 := by
    unfold calculateRebalanceNeed
    rw [List.sum_eq_zero, zero_div]
    intro x hx
    obtain ⟨pt, hpt, hfx⟩ := List.mem_map.mp hx
    rw [← hfx, hmatch pt hpt]
    simp
  rw [h0] at hneed
  exact absurd hneed (not_lt.mpr hth)

theorem claim8_witness :
    (0 : ℚ) ≤ defaultStrategy.rebalanceThreshold ∧
    ¬ shouldRebalance defaultStrategy positionsAligned 0 defaultStrategy :=
  ⟨by norm_num [defaultStrategy],
    claim8_amended_self_rebalance_false defaultStrategy positionsAligned 0
      (by norm_num [defaultStrategy])
      (by intro pt hpt
          rcases List.mem_cons.mp hpt with h1 | h2
          · subst h1
            rfl
          · rcases List.mem_cons.mp h2 with h3 | h4
            · subst h3
              rfl
            · rcases List.mem_cons.mp h4 with h5 | h6
              · subst h5
                rfl
              · rcases List.mem_cons.mp h6 with h7 | h8
                · subst h7
                  rfl
                · simp at h8)⟩

/-- Claim C2 counterexample: for a snapshot whose yield map contains lido
(APR 10) but whose risk map is empty, the optimizer computes risk-adjusted
return 10, i.e. it substitutes default risk 0; with the documented default
risk of 1 the value would be 10 * (1 - 1/100) = 9.9 ≠ 10. -/
theorem claim2_counterexample :
    riskAdjustedReturns mdLido = [("lido", (10 : ℝ))] ∧
    (10 : ℝ) ≠ 10 * (1 - 1 / 100) := by
  constructor
  · simp [riskAdjustedReturns, mdLido, lookupA]
  · norm_num

/-- Claim C2 as amended: for a protocol present in the yield map but absent
from the risk map, the optimizer substitutes default risk 0 (not 1) in the
risk-adjusted return, and protocols missing a yield entry contribute yield
0 to the expected APR; both computations are total, so a partial snapshot
never fails. -/
theorem claim2_amended_default_risk_zero (md : MarketData) (p : String)
    (apr a : ℝ) (allocations aprs : List (String × ℝ))
    (hmem : (p, apr) ∈ md.protocolAPRs)
    (hmiss : lookupA p md.protocolRisks = none)
    (hmissAPR : lookupA p aprs = none) :
    (p, apr * (1 - 0 / 100)) ∈ riskAdjustedReturns md ∧
    calculateExpectedAPR ((p, a) :: allocations) aprs
      = calculateExpectedAPR allocations aprs := by
  constructor
  · have h := List.mem_map_of_mem
      (fun pa => (pa.1, pa.2 * (1 - ((lookupA pa.1 md.protocolRisks).getD 0) / 100)))
      hmem
    rw [riskAdjustedReturns]
    simpa [hmiss] using h
  · simp [calculateExpectedAPR, hmissAPR]

theorem claim2_witness :
    ("lido", (10 : ℝ) * (1 - 0 / 100)) ∈ riskAdjustedReturns mdLido ∧
    calculateExpectedAPR [("lido", (1 : ℝ))] [] = calculateExpectedAPR [] [] :=
  claim2_amended_default_risk_zero mdLido "lido" 10 1 [] []
    (by simp [mdLido]) rfl rfl

theorem rar_mdMorpho_eval : riskAdjustedReturns mdMorpho = [("morpho", (7 : ℝ))] := by
  simp [riskAdjustedReturns, mdMorpho, lookupA]
  norm_num

theorem calcOpt_mdMorpho_eval :
    calculateOptimalAllocations RiskTolerance.aggressive
      (riskAdjustedReturns mdMorpho) mdMorpho.protocolRisks
      = [("morpho", (22 : ℝ))] := by
  have hperf : getPerformanceMultiplier 7 = 1 := by
    rw [getPerformanceMultiplier]
    norm_num [Real.tanh_zero]
  have hrisk : getRiskMultiplier RiskTolerance.aggressive 10 = 11 / 10 := by
    rw [getRiskMultiplier]
    norm_num
  have hbase : getBaseAllocation "morpho" = 20 := by
    simp [getBaseAllocation]
  rw [calculateOptimalAllocations, rar_mdMorpho_eval]
  simp only [sortByReturnDesc, insertDescR, allocLoop, mdMorpho, lookupA]
  simp [hbase, hrisk, hperf]
  norm_num

theorem allocations_mdMorpho_eval :
    (optimizeAllocation RiskTolerance.aggressive 0 50 mdMorpho).targetAllocations
      = [("morpho", (22 : ℝ))] :=
  calcOpt_mdMorpho_eval

/-- Claim C1 counterexample: with aggressive tolerance and a snapshot
giving morpho APR 70/9 and risk 10 (risk-adjusted return exactly the
baseline 7), the optimizer allocates 20 * 1.1 * 1 = 22 to morpho, which
exceeds morpho's configured cap of 20: the allocation is not clamped to
the protocol cap. -/
theorem claim1_counterexample :
    ("morpho", (22 : ℝ)) ∈
      (optimizeAllocation RiskTolerance.aggressive 0 50 mdMorpho).targetAllocations ∧
    getMaxAllocation "morpho" < 22 := by
  constructor
  · rw [allocations_mdMorpho_eval]
    exact List.mem_singleton_self _
  · simp [getMaxAllocation]
    norm_num

theorem mem_insertDescR (x y : String × ℝ) (l : List (String × ℝ)) :
    y ∈ insertDescR x l ↔ y = x ∨ y ∈ l := by
  induction l with
  | nil => simp [insertDescR]
  | cons z rest ih =>
    rw [insertDescR]
    by_cases h : z.2 ≤ x.2
    · rw [if_pos h]
      simp [List.mem_cons]
    · rw [if_neg h]
      simp only [List.mem_cons, ih]
      tauto

theorem mem_sortByReturnDesc (y : String × ℝ) (l : List (String × ℝ)) :
    y ∈ sortByReturnDesc l ↔ y ∈ l := by
  induction l with
  | nil => simp [sortByReturnDesc]
  | cons x rest ih =>
    rw [sortByReturnDesc, mem_insertDescR]
    simp [ih]

theorem allocLoop_mem_le (tolerance : RiskTolerance)
    (risks : List (String × ℝ)) (l : List (String × ℝ)) :
    ∀ (r : ℝ) (p : String) (a : ℝ), (p, a) ∈ allocLoop tolerance risks l r →
    ∃ ret, (p, ret) ∈ l ∧
      a ≤ getBaseAllocation p
            * getRiskMultiplier tolerance ((lookupA p risks).getD 0)
            * getPerformanceMultiplier ret := by
  induction l with
  | nil =>
    intro r p a h
    simp [allocLoop] at h
  | cons hd rest ih =>
    intro r p a h
    obtain ⟨q, ret⟩ := hd
    simp only [allocLoop] at h
    rcases List.mem_cons.mp h with h1 | h2
    · have hp : p = q := by
        have := congrArg Prod.fst h1
        simpa using this
      have ha : a = min (getBaseAllocation q
          * getRiskMultiplier tolerance ((lookupA q risks).getD 0)
          * getPerformanceMultiplier ret) r := by
        have := congrArg Prod.snd h1
        simpa using this
      subst hp
      refine ⟨ret, List.mem_cons_self _ _, ?_⟩
      rw [ha]
      exact min_le_left _ _
    · obtain ⟨ret', hmem', hle⟩ := ih _ p a h2
      exact ⟨ret', List.mem_cons_of_mem _ hmem', hle⟩

/-- Claim C1 as amended: each allocation produced by the optimizer is
clamped to the minimum of the raw allocation
(base * riskMultiplier * performanceMultiplier) and the remaining
unallocated percentage only — in particular it never exceeds the raw
allocation — but it is NOT clamped to the protocol's configured cap and can
exceed it (see the counterexample). -/
theorem claim1_amended_clamp_without_cap (tolerance : RiskTolerance)
    (md : MarketData) (p : String) (a : ℝ)
    (hmem : (p, a) ∈ calculateOptimalAllocations tolerance
      (riskAdjustedReturns md) md.protocolRisks) :
    ∃ ret, (p, ret) ∈ riskAdjustedReturns md ∧
      a ≤ getBaseAllocation p
            * getRiskMultiplier tolerance ((lookupA p md.protocolRisks).getD 0)
            * getPerformanceMultiplier ret := by
  rw [calculateOptimalAllocations] at hmem
  obtain ⟨ret, hmem', hle⟩ :=
    allocLoop_mem_le tolerance md.protocolRisks _ 100 p a hmem
  exact ⟨ret, (mem_sortByReturnDesc _ _).mp hmem', hle⟩

theorem claim1_witness :
    ∃ ret, ("morpho", ret) ∈ riskAdjustedReturns mdMorpho ∧
      (22 : ℝ) ≤ getBaseAllocation "morpho"
        * getRiskMultiplier RiskTolerance.aggressive
            ((lookupA "morpho" mdMorpho.protocolRisks).getD 0)
        * getPerformanceMultiplier ret :=
  claim1_amended_clamp_without_cap RiskTolerance.aggressive mdMorpho "morpho" 22
    (by rw [calcOpt_mdMorpho_eval]; exact List.mem_singleton_self _)
